import Mathlib

/-!
# drone-msf: project builder and import classification

A shallow embedding of `src/main.go`: the function `buildProject`, which maps
the records of a metasploit export to a lair project, and the tail of `main`,
which classifies the decoded answer of the lair API server.

Go strings are carried as Lean strings, Go slices as lists (a nil slice and an
empty slice are both the empty list), Go `int` as `Int` restricted to the
64-bit range by the operations that produce it.
-/

set_option linter.dupNamespace false

/-! ## Records of the imported packages -/

namespace msf

/-- Modelled from the spec: the service record of package go-msf, whose
declaration is outside this repository; the fields are the ones `buildProject`
reads, each of them used as text by the code. -/
structure Service where
  Port : String := ""
  Proto : String := ""
  State : String := ""
  Name : String := ""
  Info : String := ""
deriving DecidableEq, Repr

/-- Modelled from the spec: the host record of package go-msf, whose
declaration is outside this repository; the fields are the ones `buildProject`
reads. -/
structure Host where
  Address : String := ""
  Mac : String := ""
  Name : String := ""
  State : String := ""
  Comments : String := ""
  OsName : String := ""
  OsFlavor : String := ""
  OsSp : String := ""
  OsLang : String := ""
  Arch : String := ""
  Services : List Service := []
deriving DecidableEq, Repr

/-- Modelled from the spec: the parsed export of package go-msf, of which
`buildProject` reads the host list only. -/
structure Data where
  Hosts : List Host := []
deriving DecidableEq, Repr

end msf

namespace lair

/-- Modelled from the spec: the command log entry of package go-lair. -/
structure Command where
  Tool : String := ""
  Command : String := ""
deriving DecidableEq, Repr

/-- Modelled from the spec: the note of package go-lair, with the three fields
`buildProject` writes. -/
structure Note where
  Title : String := ""
  Content : String := ""
  LastModifiedBy : String := ""
deriving DecidableEq, Repr

/-- Modelled from the spec: the operating system entity of package go-lair;
the defaults are the Go zero values of `lair.OS{}`. -/
structure OS where
  Tool : String := ""
  Weight : Int := 0
  Fingerprint : String := ""
deriving DecidableEq, Repr

/-- Modelled from the spec: the service entity of package go-lair; the
defaults are the Go zero values of `lair.Service{}`. -/
structure Service where
  Port : Int := 0
  Protocol : String := ""
  Service : String := ""
  Product : String := ""
deriving DecidableEq, Repr

/-- Modelled from the spec: the host entity of package go-lair, with the
fields `buildProject` writes; the defaults are the Go zero values. -/
structure Host where
  IPv4 : String := ""
  MAC : String := ""
  Hostnames : List String := []
  OS : OS := {}
  Notes : List Note := []
  Services : List Service := []
  Tags : List String := []
deriving DecidableEq, Repr

/-- Modelled from the spec: the project document of package go-lair, with the
fields `buildProject` writes. -/
structure Project where
  ID : String := ""
  Tool : String := ""
  Commands : List Command := []
  Hosts : List Host := []
deriving DecidableEq, Repr

end lair

namespace client

/-- Modelled from the spec: the decoded answer of the API server (package
api-server/client), a status and a message. -/
structure Response where
  Status : String := ""
  Message : String := ""
deriving DecidableEq, Repr

end client

/-! ## The Go library function `strconv.Atoi`

Line 59 of main.go calls `strconv.Atoi` of the Go standard library and keeps
its value while dropping its error. The definitions of this section follow the
library source (`strconv/atoi.go`: `Atoi`, `ParseInt`, `ParseUint`), instantiated
at base 10 and at the 64-bit `int`. -/

/-- The bytes of a Go string, as numbers below 256: the UTF-8 encoding of the
text. -/
def goBytes (s : String) : List Nat :=
  (s.data.flatMap String.utf8EncodeChar).map UInt8.toNat

/-- The size in bits of Go's `int` (`strconv.IntSize`) on the 64-bit targets. -/
def intSize : Nat := 64

/-- The two failure kinds of `strconv.NumError`. -/
inductive NumError where
  | ErrSyntax
  | ErrRange
deriving DecidableEq, Repr

/-- Largest `uint64`. -/
def maxUint64 : Nat := 2 ^ 64 - 1

/-- The helper `lower` of strconv: `c | ('x' - 'X')`. -/
def lower (c : Nat) : Nat := c ||| 32

/-- The digit loop of `strconv.ParseUint` for base 10. `n` is the `uint64`
accumulator; the loop leaves at the first byte that is not a digit of the base
(syntax failure, value 0) and at the first digit that overflows (range failure,
value `maxVal`), whichever comes first. -/
def ParseUint_loop (maxVal cutoff : Nat) : List Nat → Nat → Nat × Option NumError
  | [], n => (n, none)
  | c :: rest, n =>
    if 48 ≤ c ∧ c ≤ 57 then
      let d := c - 48
      if d ≥ 10 then (0, some NumError.ErrSyntax)
      else if n ≥ cutoff then (maxVal, some NumError.ErrRange)
      else
        let n := (n * 10) % 2 ^ 64
        let n1 := (n + d) % 2 ^ 64
        if n1 < n ∨ n1 > maxVal then (maxVal, some NumError.ErrRange)
        else ParseUint_loop maxVal cutoff rest n1
    else if 97 ≤ lower c ∧ lower c ≤ 122 then
      let d := lower c - 97 + 10
      if d ≥ 10 then (0, some NumError.ErrSyntax)
      else if n ≥ cutoff then (maxVal, some NumError.ErrRange)
      else
        let n := (n * 10) % 2 ^ 64
        let n1 := (n + d) % 2 ^ 64
        if n1 < n ∨ n1 > maxVal then (maxVal, some NumError.ErrRange)
        else ParseUint_loop maxVal cutoff rest n1
    else (0, some NumError.ErrSyntax)

/-- The call `strconv.ParseUint(s, 10, 0)` on the bytes of `s`: bit size 0
stands for `IntSize`, the cutoff is `maxUint64/10 + 1`. -/
def ParseUint (s : List Nat) : Nat × Option NumError :=
  if s = [] then (0, some NumError.ErrSyntax)
  else
    let bitSize := intSize
    let cutoff := maxUint64 / 10 + 1
    let maxVal := 2 ^ bitSize - 1
    ParseUint_loop maxVal cutoff s 0

/-- Conversion `int64(u)` of a `uint64`. -/
def int64 (u : Nat) : Int :=
  if u % 2 ^ 64 < 2 ^ 63 then ((u % 2 ^ 64 : Nat) : Int) else ((u % 2 ^ 64 : Nat) : Int) - 2 ^ 64

/-- Negation of an `int64`, wrapping at the lower bound. -/
def negInt64 (n : Int) : Int :=
  if n = -(2 ^ 63) then n else -n

/-- The call `strconv.ParseInt(s, 10, 0)` on the bytes of `s`: a leading sign
is picked off, the rest goes through `ParseUint`, a syntax failure gives 0 and
a value outside the `int` range gives the bound of its sign. -/
def ParseInt (s : List Nat) : Int × Option NumError :=
  match s with
  | [] => (0, some NumError.ErrSyntax)
  | c :: rest =>
    let neg := decide (c ≠ 43) && decide (c = 45)
    let s1 := if c = 43 then rest else if c = 45 then rest else s
    let r := ParseUint s1
    if r.2 ≠ none ∧ r.2 ≠ some NumError.ErrRange then (0, r.2)
    else
      let un := r.1
      let bitSize := intSize
      let cutoff := 2 ^ (bitSize - 1)
      if ¬ neg ∧ un ≥ cutoff then (((cutoff - 1 : Nat) : Int), some NumError.ErrRange)
      else if neg ∧ un > cutoff then (-((cutoff : Nat) : Int), some NumError.ErrRange)
      else
        let n := int64 un
        let n := if neg then negInt64 n else n
        (n, none)

/-- The digit loop of the fast path of `strconv.Atoi`: `ch -= '0'` on a byte,
failure when the result exceeds 9. -/
def Atoi_fast_loop : List Nat → Int → Option Int
  | [], n => some n
  | ch :: rest, n =>
    let ch := (ch + 256 - 48) % 256
    if ch > 9 then none
    else Atoi_fast_loop rest (n * 10 + (ch : Int))

/-- The function `strconv.Atoi` on the bytes of `s`: texts short enough to fit
`int` take the fast path, all others the call `ParseInt(s, 10, 0)`. -/
def Atoi_bytes (s : List Nat) : Int × Option NumError :=
  let sLen := s.length
  if (intSize = 32 ∧ (0 < sLen ∧ sLen < 10)) ∨ (intSize = 64 ∧ (0 < sLen ∧ sLen < 19)) then
    match s with
    | [] => (0, some NumError.ErrSyntax)
    | c :: rest =>
      let signed := decide (c = 45) || decide (c = 43)
      let s1 := if signed then rest else s
      if signed ∧ s1.length < 1 then (0, some NumError.ErrSyntax)
      else
        match Atoi_fast_loop s1 0 with
        | none => (0, some NumError.ErrSyntax)
        | some n => (if c = 45 then -n else n, none)
  else ParseInt s

/-- The function `strconv.Atoi`: the value and the error (`none` is Go's nil). -/
def Atoi (s : String) : Int × Option NumError :=
  Atoi_bytes (goBytes s)

/-! ## The program -/

/-- The constant `tool` (main.go, line 21). -/
def tool : String := "metasploit"

/-- Body of the loop over `h.Services` (main.go, lines 57-72): the state of the
loop is the host under construction. -/
def buildProject_service (host : lair.Host) (svc : msf.Service) : lair.Host :=
  let service : lair.Service := {}
  let service := { service with Port := (Atoi svc.Port).1 }
  let service := { service with Protocol := svc.Proto }
  if svc.State ≠ "open" then host
  else
    let service :=
      if svc.Name ≠ "" then
        let service := { service with Service := svc.Name }
        let service := { service with Product := "Unknown" }
        if svc.Info ≠ "" then { service with Product := svc.Info } else service
      else service
    { host with Services := host.Services ++ [service] }

/-- Body of the loop over `data.Hosts` (main.go, lines 43-81): the state of the
loop is the project under construction. Line 74 assigns the literal
"Metasploit" to the `Tool` of `oos`, a name that is not the local `os`; the
`os` stored in the host gets its `Weight` and `Fingerprint` only, and its
`Tool` keeps the zero value. -/
def buildProject_host (tags : List String) (project : lair.Project) (h : msf.Host) :
    lair.Project :=
  let host : lair.Host := { Tags := tags }
  if h.State ≠ "alive" then project
  else
    let host := { host with IPv4 := h.Address }
    let host := { host with MAC := h.Mac }
    let host := { host with Hostnames := host.Hostnames ++ [h.Name] }
    let host :=
      if h.Comments ≠ "" then
        let hnote : lair.Note :=
          { Title := "Comments", Content := h.Comments, LastModifiedBy := tool }
        { host with Notes := host.Notes ++ [hnote] }
      else host
    let host := h.Services.foldl buildProject_service host
    let os : lair.OS := {}
    -- line 74, `oos.Tool = "Metasploit"`, does not write to `os`
    let os := { os with Weight := 1 }
    let os := { os with
      Fingerprint := h.OsName ++ " " ++ h.OsFlavor ++ " " ++ h.OsSp ++ " " ++ h.OsLang ++ " " ++ h.Arch }
    let host := { host with OS := os }
    { project with Hosts := project.Hosts ++ [host] }

/-- The function `buildProject` (main.go, lines 38-84); the second component
is the returned error, `none` for Go's nil. -/
def buildProject (data : msf.Data) (projectID : String) (tags : List String) :
    lair.Project × Option String :=
  let project : lair.Project := {}
  let project := { project with ID := projectID }
  let project := { project with Tool := tool }
  let project :=
    { project with Commands := project.Commands ++ [{ Tool := tool, Command := "" }] }
  let project := data.Hosts.foldl (buildProject_host tags) project
  (project, none)

/-- How the process ends after the answer is decoded. -/
inductive Outcome where
  | fatal (line : String)
  | success (line : String)
deriving DecidableEq, Repr

/-- The end of `main` (main.go, lines 171-174) on the decoded answer:
`log.Fatalf` with the format "Fatal: Import failed. Error %s" when the status
is "Error", the success line otherwise. -/
def main_classify (droneRes : client.Response) : Outcome :=
  if droneRes.Status = "Error" then
    Outcome.fatal ("Fatal: Import failed. Error " ++ droneRes.Message)
  else
    Outcome.success "Success: Operation completed successfully"

/-! ## The loops in closed form -/

/-- The service entity the inner loop appends for a service record that
passes the state test. -/
def emittedService (svc : msf.Service) : lair.Service :=
  { Port := (Atoi svc.Port).1
    Protocol := svc.Proto
    Service := svc.Name
    Product := if svc.Name = "" then "" else if svc.Info = "" then "Unknown" else svc.Info }

/-- The records of a list that pass the test of line 61. -/
def openServices (svcs : List msf.Service) : List msf.Service :=
  svcs.filter (fun svc => decide (svc.State = "open"))

/-- The records of the export that pass the test of line 45. -/
def aliveHosts (data : msf.Data) : List msf.Host :=
  data.Hosts.filter (fun h => decide (h.State = "alive"))

/-- The host entity the outer loop appends for a host record that passes the
state test. -/
def emittedHost (tags : List String) (h : msf.Host) : lair.Host :=
  { IPv4 := h.Address
    MAC := h.Mac
    Hostnames := [h.Name]
    OS :=
      { Tool := ""
        Weight := 1
        Fingerprint :=
          h.OsName ++ " " ++ h.OsFlavor ++ " " ++ h.OsSp ++ " " ++ h.OsLang ++ " " ++ h.Arch }
    Notes :=
      if h.Comments = "" then []
      else [{ Title := "Comments", Content := h.Comments, LastModifiedBy := "metasploit" }]
    Services := (openServices h.Services).map emittedService
    Tags := tags }

/-! ## Reading a port text -/

/-- Smallest value of Go's `int` on a 64-bit target. -/
def minInt : Int := -(2 ^ 63)

/-- Largest value of Go's `int` on a 64-bit target. -/
def maxInt : Int := 2 ^ 63 - 1

/-- Whether a byte is one of the ASCII digits 0 to 9. -/
def isDigitByte (c : Nat) : Bool := decide (48 ≤ c) && decide (c ≤ 57)

/-- The number read so far is `n`; reading the digit bytes `ds` after it, most
significant first, gives this number. -/
def digitsValueFrom (n : Nat) (ds : List Nat) : Nat :=
  ds.foldl (fun acc c => acc * 10 + (c - 48)) n

/-- The number a run of digit bytes denotes in base ten. -/
def digitsValue (ds : List Nat) : Nat := digitsValueFrom 0 ds

/-- The text without its leading sign byte, plus or minus, when it has one. -/
def unsignedPart (bs : List Nat) : List Nat :=
  match bs with
  | [] => []
  | c :: rest => if c = 43 ∨ c = 45 then rest else c :: rest

/-- Whether the text starts with a minus sign. -/
def isNegative (bs : List Nat) : Bool :=
  match bs with
  | [] => false
  | c :: _ => decide (c = 45)

/-- The integer a text denotes as a decimal integer: an optional sign followed
by one or more digits and nothing else; `none` for any other text. -/
def denotedInt_bytes (bs : List Nat) : Option Int :=
  if unsignedPart bs ≠ [] ∧ (unsignedPart bs).all isDigitByte = true then
    some (if isNegative bs = true then -((digitsValue (unsignedPart bs) : Nat) : Int)
      else ((digitsValue (unsignedPart bs) : Nat) : Int))
  else none

/-- The integer a port text denotes as a decimal integer, when it is one. -/
def denotedInt (s : String) : Option Int := denotedInt_bytes (goBytes s)

/-- The digits a text starts with, after its sign. -/
def leadingDigits (bs : List Nat) : List Nat :=
  (unsignedPart bs).takeWhile isDigitByte

/-- The bound of the `int` range on the side of the sign of the text. -/
def boundOfSign (bs : List Nat) : Int :=
  if isNegative bs = true then minInt else maxInt

/-- The port of a text, on its bytes: the denoted integer when it lies in the
`int` range and the nearest bound of the range when it does not; for a text
that is no decimal integer, zero, except that leading digits which already
exceed the 64-bit unsigned range give the bound of the sign. -/
def portValue_bytes (bs : List Nat) : Int :=
  match denotedInt_bytes bs with
  | some v => if maxInt < v then maxInt else if v < minInt then minInt else v
  | none => if 2 ^ 64 ≤ digitsValue (leadingDigits bs) then boundOfSign bs else 0

/-- The port of a port text. -/
def portValue (s : String) : Int := portValue_bytes (goBytes s)

/-! ## The loops are their closed forms -/

theorem buildProject_service_open (host : lair.Host) (svc : msf.Service)
    (h : svc.State = "open") :
    buildProject_service host svc =
      { host with Services := host.Services ++ [emittedService svc] } := by
  unfold buildProject_service emittedService
  by_cases hn : svc.Name = "" <;> by_cases hi : svc.Info = "" <;> simp [h, hn, hi]

theorem buildProject_service_closed (host : lair.Host) (svc : msf.Service)
    (h : svc.State ≠ "open") : buildProject_service host svc = host := by
  unfold buildProject_service
  simp [h]

theorem buildProject_service_foldl (svcs : List msf.Service) (host : lair.Host) :
    svcs.foldl buildProject_service host =
      { host with Services := host.Services ++ (openServices svcs).map emittedService } := by
  induction svcs generalizing host with
  | nil => simp [openServices]
  | cons svc rest ih =>
    rw [List.foldl_cons, ih]
    by_cases h : svc.State = "open"
    · rw [buildProject_service_open host svc h]
      simp [openServices, h]
    · rw [buildProject_service_closed host svc h]
      simp [openServices, h]

theorem buildProject_host_alive (tags : List String) (project : lair.Project) (h : msf.Host)
    (hs : h.State = "alive") :
    buildProject_host tags project h =
      { project with Hosts := project.Hosts ++ [emittedHost tags h] } := by
  unfold buildProject_host emittedHost
  by_cases hc : h.Comments = "" <;> simp [hs, hc, buildProject_service_foldl, tool]

theorem buildProject_host_other (tags : List String) (project : lair.Project) (h : msf.Host)
    (hs : h.State ≠ "alive") : buildProject_host tags project h = project := by
  unfold buildProject_host
  simp [hs]

theorem buildProject_host_foldl (tags : List String) (hosts : List msf.Host)
    (project : lair.Project) :
    hosts.foldl (buildProject_host tags) project =
      { project with
        Hosts := project.Hosts ++
          (hosts.filter (fun h => decide (h.State = "alive"))).map (emittedHost tags) } := by
  induction hosts generalizing project with
  | nil => simp
  | cons h rest ih =>
    rw [List.foldl_cons, ih]
    by_cases hs : h.State = "alive"
    · rw [buildProject_host_alive tags project h hs]
      simp [hs]
    · rw [buildProject_host_other tags project h hs]
      simp [hs]

/-- The host list of the result in closed form: one emitted host per alive
record, in input order. -/
theorem buildProject_hosts (data : msf.Data) (projectID : String) (tags : List String) :
    (buildProject data projectID tags).1.Hosts = (aliveHosts data).map (emittedHost tags) := by
  unfold buildProject aliveHosts
  simp [buildProject_host_foldl]

/-! ## The library function Atoi in closed form -/

theorem digitsValueFrom_cons (n c : Nat) (ds : List Nat) :
    digitsValueFrom n (c :: ds) = digitsValueFrom (n * 10 + (c - 48)) ds := rfl

theorem digitsValueFrom_nil (n : Nat) : digitsValueFrom n [] = n := rfl

theorem le_digitsValueFrom (ds : List Nat) (n : Nat) : n ≤ digitsValueFrom n ds := by
  induction ds generalizing n with
  | nil => exact Nat.le_refl _
  | cons c ds ih =>
    rw [digitsValueFrom_cons]
    have := ih (n * 10 + (c - 48))
    omega

theorem isDigitByte_iff (c : Nat) : isDigitByte c = true ↔ 48 ≤ c ∧ c ≤ 57 := by
  simp [isDigitByte]

theorem cutoff_eq : maxUint64 / 10 + 1 = 1844674407370955162 := by
  norm_num [maxUint64]

theorem pow64_eq : (2 : Nat) ^ 64 = 18446744073709551616 := by norm_num

/-- The digit loop of ParseUint in closed form: a range failure when the
leading digits exceed the unsigned range, else a syntax failure when a byte
follows the leading digits, else the number read. -/
theorem ParseUint_loop_eq (bs : List Nat) (n : Nat) (hn : n < 2 ^ 64) :
    ParseUint_loop (2 ^ 64 - 1) (maxUint64 / 10 + 1) bs n =
      if 2 ^ 64 ≤ digitsValueFrom n (bs.takeWhile isDigitByte) then
        (2 ^ 64 - 1, some NumError.ErrRange)
      else if bs.takeWhile isDigitByte ≠ bs then (0, some NumError.ErrSyntax)
      else (digitsValueFrom n bs, none) := by
  induction bs generalizing n with
  | nil =>
    rw [pow64_eq] at hn ⊢
    have : ¬ 18446744073709551616 ≤ n := by omega
    simp [ParseUint_loop, digitsValueFrom_nil, this]
  | cons c rest ih =>
    rw [cutoff_eq] at ih ⊢
    rw [pow64_eq] at ih hn ⊢
    by_cases hd : 48 ≤ c ∧ c ≤ 57
    · have hdb : isDigitByte c = true := (isDigitByte_iff c).2 hd
      have hd10 : ¬ c - 48 ≥ 10 := by omega
      rw [List.takeWhile_cons_of_pos hdb, digitsValueFrom_cons, digitsValueFrom_cons]
      have hmono := le_digitsValueFrom (rest.takeWhile isDigitByte) (n * 10 + (c - 48))
      by_cases hcut : n ≥ 1844674407370955162
      · have hbig : 18446744073709551616 ≤
            digitsValueFrom (n * 10 + (c - 48)) (rest.takeWhile isDigitByte) := by omega
        simp only [ParseUint_loop, hd, hd10, hcut, hbig]
        simp
      · by_cases hov : 18446744073709551616 ≤ n * 10 + (c - 48)
        · have hbig : 18446744073709551616 ≤
              digitsValueFrom (n * 10 + (c - 48)) (rest.takeWhile isDigitByte) := by omega
          have h1 : (n * 10 % 18446744073709551616 + (c - 48)) % 18446744073709551616 <
              n * 10 % 18446744073709551616 ∨
              (n * 10 % 18446744073709551616 + (c - 48)) % 18446744073709551616 >
                18446744073709551616 - 1 := by omega
          simp only [ParseUint_loop, hd, hd10, hcut, hbig, pow64_eq, h1]
          simp
        · have h1 : ¬ ((n * 10 % 18446744073709551616 + (c - 48)) % 18446744073709551616 <
              n * 10 % 18446744073709551616 ∨
              (n * 10 % 18446744073709551616 + (c - 48)) % 18446744073709551616 >
                18446744073709551616 - 1) := by omega
          have h2 : (n * 10 % 18446744073709551616 + (c - 48)) % 18446744073709551616 =
              n * 10 + (c - 48) := by omega
          have hlt : n * 10 + (c - 48) < 18446744073709551616 := by omega
          simp only [ParseUint_loop, hd, hd10, hcut, pow64_eq, h1]
          simp only [h2]
          simp only [and_self, if_true, ge_iff_le, List.cons.injEq, true_and]
          rw [ih _ hlt]
          simp
    · have hdb : ¬ isDigitByte c = true := fun h => hd ((isDigitByte_iff c).1 h)
      rw [List.takeWhile_cons_of_neg hdb, digitsValueFrom_nil]
      have hn' : ¬ 18446744073709551616 ≤ n := by omega
      have hl : lower c - 97 + 10 ≥ 10 := by omega
      simp only [ParseUint_loop, hd, hl]
      simp [hn']

theorem takeWhile_eq_self_iff_all (bs : List Nat) :
    bs.takeWhile isDigitByte = bs ↔ bs.all isDigitByte = true := by
  rw [List.takeWhile_eq_self_iff, List.all_eq_true]

/-- The call ParseUint(s, 10, 0) in closed form. -/
theorem ParseUint_eq (s : List Nat) :
    ParseUint s =
      if s = [] then (0, some NumError.ErrSyntax)
      else if 2 ^ 64 ≤ digitsValue (s.takeWhile isDigitByte) then
        (2 ^ 64 - 1, some NumError.ErrRange)
      else if s.all isDigitByte = true then (digitsValue s, none)
      else (0, some NumError.ErrSyntax) := by
  unfold ParseUint
  by_cases hs : s = []
  · simp [hs]
  · simp only [hs, if_false, intSize, digitsValue]
    rw [ParseUint_loop_eq s 0 (by norm_num)]
    by_cases hov : 2 ^ 64 ≤ digitsValueFrom 0 (s.takeWhile isDigitByte)
    · simp only [hov, if_true]
    · simp only [hov, if_false]
      by_cases hall : s.all isDigitByte = true
      · have := (takeWhile_eq_self_iff_all s).2 hall
        simp [hall, this]
      · have : s.takeWhile isDigitByte ≠ s := fun h => hall ((takeWhile_eq_self_iff_all s).1 h)
        rw [if_pos this, if_neg hall]

theorem int64_of_lt (u : Nat) (h : u < 2 ^ 63) : int64 u = (u : Int) := by
  unfold int64
  have h1 : u % 2 ^ 64 = u := Nat.mod_eq_of_lt (by omega)
  rw [h1, if_pos h]

theorem int64_cutoff : int64 (2 ^ 63) = -(2 ^ 63) := by decide

theorem negInt64_of_nonneg (n : Int) (h : 0 ≤ n) : negInt64 n = -n := by
  unfold negInt64
  have : n ≠ -(2 ^ 63) := by
    intro h'
    rw [h'] at h
    norm_num at h
  rw [if_neg this]

theorem negInt64_min : negInt64 (-(2 ^ 63)) = -(2 ^ 63) := by decide

/-- The value of ParseInt(s, 10, 0) is the port of the text. -/
theorem ParseInt_value (bs : List Nat) : (ParseInt bs).1 = portValue_bytes bs := by
  cases bs with
  | nil => decide
  | cons c rest =>
    have hs1 : (if c = 43 then rest else if c = 45 then rest else c :: rest) =
        unsignedPart (c :: rest) := by
      unfold unsignedPart
      by_cases h1 : c = 43 <;> by_cases h2 : c = 45 <;> simp [h1, h2]
    have hneg : (decide (c ≠ 43) && decide (c = 45)) = isNegative (c :: rest) := by
      unfold isNegative
      by_cases h2 : c = 45 <;> simp [h2]
    unfold ParseInt portValue_bytes denotedInt_bytes leadingDigits boundOfSign
    simp only [hs1, hneg]
    generalize unsignedPart (c :: rest) = body
    generalize isNegative (c :: rest) = neg
    rw [ParseUint_eq]
    by_cases hb : body = []
    · subst hb
      cases neg <;> simp [digitsValue, digitsValueFrom]
    · by_cases hall : body.all isDigitByte = true
      · have htw := (takeWhile_eq_self_iff_all body).2 hall
        rw [htw]
        generalize digitsValue body = v
        simp only [hb, hall, if_false, if_true, ne_eq, not_false_eq_true, and_self, intSize,
          minInt, maxInt]
        by_cases hov : 2 ^ 64 ≤ v
        · simp only [hov, if_true]
          cases neg
          · simp
            omega
          · simp
            omega
        · simp only [hov, if_false]
          cases neg
          · simp
            by_cases h63 : 9223372036854775808 ≤ v
            · rw [if_pos h63]
              split_ifs <;> omega
            · rw [if_neg h63, int64_of_lt v (by omega)]
              split_ifs <;> omega
          · simp
            by_cases h63 : 9223372036854775808 < v
            · rw [if_pos h63]
              split_ifs <;> omega
            · rw [if_neg h63]
              by_cases he : v = 2 ^ 63
              · subst he
                rw [int64_cutoff, negInt64_min]
                norm_num
              · have hlt : v < 2 ^ 63 := by omega
                rw [int64_of_lt v hlt, negInt64_of_nonneg _ (by omega)]
                split_ifs <;> omega
      · simp only [hb, hall, if_false, and_false, ne_eq, not_false_eq_true, intSize,
          minInt, maxInt]
        by_cases hov : 2 ^ 64 ≤ digitsValue (List.takeWhile isDigitByte body)
        · simp only [hov, if_true]
          cases neg <;> simp
        · simp only [hov, if_false]
          simp

theorem digitsValueFrom_succ_le (ds : List Nat) (n : Nat)
    (h : ∀ c ∈ ds, isDigitByte c = true) :
    digitsValueFrom n ds + 1 ≤ (n + 1) * 10 ^ ds.length := by
  induction ds generalizing n with
  | nil => simp [digitsValueFrom_nil]
  | cons c ds ih =>
    have hc := (isDigitByte_iff c).1 (h c (List.mem_cons_self c ds))
    have hrest : ∀ x ∈ ds, isDigitByte x = true := fun x hx => h x (List.mem_cons_of_mem c hx)
    rw [digitsValueFrom_cons, List.length_cons, pow_succ]
    calc digitsValueFrom (n * 10 + (c - 48)) ds + 1
        ≤ (n * 10 + (c - 48) + 1) * 10 ^ ds.length := ih _ hrest
      _ ≤ ((n + 1) * 10) * 10 ^ ds.length := Nat.mul_le_mul_right _ (by omega)
      _ = (n + 1) * (10 ^ ds.length * 10) := by ring

theorem digitsValue_takeWhile_lt (bs : List Nat) (h : bs.length ≤ 18) :
    digitsValue (bs.takeWhile isDigitByte) < 10 ^ 18 := by
  have h1 := digitsValueFrom_succ_le (bs.takeWhile isDigitByte) 0
    (fun c hc => (List.mem_takeWhile_imp hc))
  have h2 : (bs.takeWhile isDigitByte).length ≤ 18 :=
    Nat.le_trans (List.takeWhile_sublist isDigitByte).length_le h
  have h3 : 10 ^ (bs.takeWhile isDigitByte).length ≤ 10 ^ 18 :=
    Nat.pow_le_pow_right (by norm_num) h2
  unfold digitsValue
  omega

/-- The fast loop of Atoi in closed form, on bytes. -/
theorem Atoi_fast_loop_eq (bs : List Nat) (hb : ∀ b ∈ bs, b < 256) (m : Nat) :
    Atoi_fast_loop bs (m : Int) =
      if bs.all isDigitByte = true then some ((digitsValueFrom m bs : Nat) : Int) else none := by
  induction bs generalizing m with
  | nil => simp [Atoi_fast_loop, digitsValueFrom_nil]
  | cons c rest ih =>
    have hc : c < 256 := hb c (List.mem_cons_self c rest)
    have hrest : ∀ b ∈ rest, b < 256 := fun b hx => hb b (List.mem_cons_of_mem c hx)
    by_cases hd : 48 ≤ c ∧ c ≤ 57
    · have hdb : isDigitByte c = true := (isDigitByte_iff c).2 hd
      have h1 : (c + 256 - 48) % 256 = c - 48 := by omega
      have h2 : ¬ (c - 48 > 9) := by omega
      have h3 : (m : Int) * 10 + ((c - 48 : Nat) : Int) = ((m * 10 + (c - 48) : Nat) : Int) := by
        push_cast
        ring
      simp only [Atoi_fast_loop, h1, h2, if_false, h3]
      rw [ih hrest, digitsValueFrom_cons]
      simp [hdb]
    · have hdb : ¬ isDigitByte c = true := fun h => hd ((isDigitByte_iff c).1 h)
      have h1 : (c + 256 - 48) % 256 > 9 := by omega
      simp only [Atoi_fast_loop, h1, if_true]
      simp [hdb]

/-- The value of Atoi on a byte text is the port of the text. -/
theorem Atoi_bytes_value (bs : List Nat) (hb : ∀ b ∈ bs, b < 256) :
    (Atoi_bytes bs).1 = portValue_bytes bs := by
  unfold Atoi_bytes
  by_cases hfast : (intSize = 32 ∧ (0 < bs.length ∧ bs.length < 10)) ∨
      (intSize = 64 ∧ (0 < bs.length ∧ bs.length < 19))
  · simp only [hfast, if_true]
    have hlen : bs.length < 19 := by
      rcases hfast with h | h
      · omega
      · exact h.2.2
    cases bs with
    | nil => decide
    | cons c rest =>
      have hs1 : (if (decide (c = 45) || decide (c = 43)) = true then rest else c :: rest) =
          unsignedPart (c :: rest) := by
        unfold unsignedPart
        by_cases h1 : c = 43 <;> by_cases h2 : c = 45 <;> simp [h1, h2]
      have hbody : ∀ b ∈ unsignedPart (c :: rest), b < 256 := by
        intro b hmem
        unfold unsignedPart at hmem
        by_cases h1 : c = 43 ∨ c = 45
        · simp only [h1, if_true] at hmem
          exact hb b (List.mem_cons_of_mem c hmem)
        · simp only [h1, if_false] at hmem
          exact hb b hmem
      have hblen : (unsignedPart (c :: rest)).length ≤ 18 := by
        unfold unsignedPart
        simp only [List.length_cons] at hlen
        by_cases h1 : c = 43 ∨ c = 45
        · simp only [h1, if_true]
          omega
        · simp only [h1, if_false, List.length_cons]
          omega
      have hempty : ¬ (c = 43 ∨ c = 45) → unsignedPart (c :: rest) ≠ [] := by
        intro h1
        unfold unsignedPart
        simp [h1]
      have hrun := digitsValue_takeWhile_lt (unsignedPart (c :: rest)) hblen
      simp only [hs1]
      have hAt := Atoi_fast_loop_eq (unsignedPart (c :: rest)) hbody 0
      simp only [Nat.cast_zero] at hAt
      rw [hAt]
      unfold portValue_bytes denotedInt_bytes leadingDigits boundOfSign isNegative
      revert hrun hempty
      generalize unsignedPart (c :: rest) = body
      intro hempty hrun
      have hnov : ¬ 2 ^ 64 ≤ digitsValue (List.takeWhile isDigitByte body) := by
        have : (10 : Nat) ^ 18 < 2 ^ 64 := by norm_num
        omega
      by_cases hb0 : body = []
      · have hsign : c = 43 ∨ c = 45 := by
          by_contra hcon
          exact hempty hcon hb0
        subst hb0
        rcases hsign with h | h <;> simp [h, digitsValue, digitsValueFrom]
      · have hl : ¬ body.length < 1 := by
          cases body with
          | nil => exact absurd rfl hb0
          | cons x xs => simp
        by_cases hall : body.all isDigitByte = true
        · have htw := (takeWhile_eq_self_iff_all body).2 hall
          rw [htw] at hrun
          have hv : ((digitsValue body : Nat) : Int) < 10 ^ 18 := by exact_mod_cast hrun
          have hv0 : (0 : Int) ≤ ((digitsValue body : Nat) : Int) := Int.ofNat_nonneg _
          simp only [hl, and_false, if_false, hall, if_true, hb0, ne_eq, not_false_eq_true,
            and_self, minInt, maxInt]
          change (if c = 45 then -((digitsValue body : Nat) : Int)
            else ((digitsValue body : Nat) : Int)) = _
          by_cases h45 : c = 45
          · simp only [h45, if_true, decide_True]
            split_ifs <;> omega
          · simp only [h45, if_false, decide_False]
            simp only [Bool.false_eq_true, if_false]
            split_ifs <;> omega
        · simp only [hl, and_false, if_false, hall, hnov]
          simp
  · simp only [hfast, if_false]
    exact ParseInt_value bs

theorem goBytes_lt (s : String) : ∀ b ∈ goBytes s, b < 256 := by
  intro b hb
  unfold goBytes at hb
  rcases List.mem_map.1 hb with ⟨u, _, rfl⟩
  exact u.val.isLt

/-- The value of strconv.Atoi on a text is the port of the text. -/
theorem Atoi_value (s : String) : (Atoi s).1 = portValue s :=
  Atoi_bytes_value (goBytes s) (goBytes_lt s)

/-! ## Hosts and their fields -/

/-- C1: the addresses (IPv4 with the MAC alongside) of the hosts of the
result are, in order, the addresses of the input records whose State is
"alive"; every other record gives no host and equal records are not merged. -/
theorem buildProject_hosts_are_alive_records (data : msf.Data) (projectID : String)
    (tags : List String) :
    (buildProject data projectID tags).1.Hosts.map (fun host => (host.IPv4, host.MAC)) =
      (data.Hosts.filter (fun h => decide (h.State = "alive"))).map
        (fun h => (h.Address, h.Mac)) := by
  rw [buildProject_hosts]
  simp [aliveHosts, emittedHost, Function.comp_def]

/-- C2: host by host, the protocols of the services of the result are, in
order, the protocols of the service records of the alive record whose State is
"open"; every other service record gives no service. -/
theorem buildProject_services_are_open_records (data : msf.Data) (projectID : String)
    (tags : List String) :
    (buildProject data projectID tags).1.Hosts.map
        (fun host => host.Services.map (fun service => service.Protocol)) =
      (data.Hosts.filter (fun h => decide (h.State = "alive"))).map
        (fun h => (h.Services.filter (fun svc => decide (svc.State = "open"))).map
          (fun svc => svc.Proto)) := by
  rw [buildProject_hosts]
  simp [aliveHosts, openServices, emittedHost, emittedService, Function.comp_def]

/-- C3: for every open service record of an alive host, the emitted service
has an empty name and an empty product when the source Name is empty, and
otherwise has the source Name as name and, as product, the Info text when it
is not empty and the literal "Unknown" when it is. -/
theorem buildProject_service_name_product (data : msf.Data) (projectID : String)
    (tags : List String) :
    (buildProject data projectID tags).1.Hosts.map
        (fun host => host.Services.map (fun service => (service.Service, service.Product))) =
      (data.Hosts.filter (fun h => decide (h.State = "alive"))).map
        (fun h => (h.Services.filter (fun svc => decide (svc.State = "open"))).map
          (fun svc =>
            if svc.Name = "" then ("", "")
            else if svc.Info = "" then (svc.Name, "Unknown")
            else (svc.Name, svc.Info))) := by
  rw [buildProject_hosts]
  simp only [aliveHosts, openServices, emittedHost, emittedService, List.map_map]
  refine List.map_congr_left (fun h _ => ?_)
  simp only [Function.comp_def, emittedHost, openServices, List.map_map]
  refine List.map_congr_left (fun svc _ => ?_)
  by_cases hn : svc.Name = "" <;> by_cases hi : svc.Info = "" <;>
    simp [emittedService, hn, hi]

/-- C5: the OS fingerprint of the host of every alive record is
OsName + " " + OsFlavor + " " + OsSp + " " + OsLang + " " + Arch, which is the
five fields joined by single spaces, empty fields kept; a record whose five
fields are empty gives four spaces. -/
theorem buildProject_os_fingerprint (data : msf.Data) (projectID : String)
    (tags : List String) :
    (buildProject data projectID tags).1.Hosts.map (fun host => host.OS.Fingerprint) =
        (data.Hosts.filter (fun h => decide (h.State = "alive"))).map
          (fun h => h.OsName ++ " " ++ h.OsFlavor ++ " " ++ h.OsSp ++ " " ++ h.OsLang
            ++ " " ++ h.Arch) ∧
      (buildProject data projectID tags).1.Hosts.map (fun host => host.OS.Fingerprint) =
        (data.Hosts.filter (fun h => decide (h.State = "alive"))).map
          (fun h => " ".intercalate [h.OsName, h.OsFlavor, h.OsSp, h.OsLang, h.Arch]) ∧
      (buildProject { Hosts := [{ State := "alive" }] } projectID tags).1.Hosts.map
        (fun host => host.OS.Fingerprint) = ["    "] := by
  refine ⟨?_, ?_, ?_⟩
  · rw [buildProject_hosts]
    simp [aliveHosts, emittedHost, Function.comp_def]
  · rw [buildProject_hosts]
    simp only [aliveHosts, emittedHost, List.map_map]
    refine List.map_congr_left (fun h _ => ?_)
    simp [emittedHost, String.intercalate, String.intercalate.go, String.append_assoc]
  · rw [buildProject_hosts]
    simp [aliveHosts, emittedHost]

/-- C6: the host of every alive record has no note when Comments is empty
and otherwise exactly one note, with title "Comments", the Comments text as
content, and LastModifiedBy equal to the Tool of the project, "metasploit". -/
theorem buildProject_notes (data : msf.Data) (projectID : String) (tags : List String) :
    (buildProject data projectID tags).1.Hosts.map (fun host => host.Notes) =
        (data.Hosts.filter (fun h => decide (h.State = "alive"))).map
          (fun h =>
            if h.Comments = "" then []
            else [{ Title := "Comments", Content := h.Comments,
                    LastModifiedBy := (buildProject data projectID tags).1.Tool }]) ∧
      (buildProject data projectID tags).1.Tool = "metasploit" ∧ tool = "metasploit" := by
  have ht : (buildProject data projectID tags).1.Tool = "metasploit" := by
    simp [buildProject, buildProject_host_foldl, tool]
  refine ⟨?_, ht, rfl⟩
  rw [ht, buildProject_hosts]
  simp [aliveHosts, emittedHost, Function.comp_def]

/-- C7: every host of the result has the tag list passed to buildProject as
its Tags, element for element; there is one such copy per alive record. -/
theorem buildProject_tags (data : msf.Data) (projectID : String) (tags : List String) :
    (buildProject data projectID tags).1.Hosts.map (fun host => host.Tags) =
      List.replicate (data.Hosts.filter (fun h => decide (h.State = "alive"))).length tags := by
  rw [buildProject_hosts]
  simp [aliveHosts, emittedHost, Function.comp_def, List.eq_replicate_iff]

/-- C9: the Hostnames of the host of every alive record is the list with the
one element Name, also when Name is the empty string. -/
theorem buildProject_hostnames (data : msf.Data) (projectID : String) (tags : List String) :
    (buildProject data projectID tags).1.Hosts.map (fun host => host.Hostnames) =
        (data.Hosts.filter (fun h => decide (h.State = "alive"))).map (fun h => [h.Name]) ∧
      (buildProject { Hosts := [{ State := "alive", Name := "" }] } projectID tags).1.Hosts.map
        (fun host => host.Hostnames) = [[""]] := by
  constructor
  · rw [buildProject_hosts]
    simp [aliveHosts, emittedHost, Function.comp_def]
  · rw [buildProject_hosts]
    simp [aliveHosts, emittedHost]

/-- C10: on the export with the single alive record of address 10.0.0.1 the
host of the result carries an OS entity of weight 1 whose tool marker is the
empty string, not "Metasploit". -/
theorem buildProject_os_tool_unset :
    (buildProject { Hosts := [{ Address := "10.0.0.1", State := "alive" }] } "p" []).1.Hosts.map
        (fun host => (host.OS.Tool, host.OS.Weight)) = [("", 1)] ∧
      (buildProject { Hosts := [{ Address := "10.0.0.1", State := "alive" }] } "p" []).1.Hosts.map
        (fun host => host.OS.Tool) ≠ ["Metasploit"] := by
  rw [buildProject_hosts]
  decide

/-! ## Import classification -/

/-- C8: the outcome of the classification is fatal exactly when the status
is "Error", and the fatal line is then the fixed text of the log call followed
by the message of the server unchanged; every other status gives the success
outcome. -/
theorem main_classify_fatal_iff (droneRes : client.Response) :
    ((∃ line, main_classify droneRes = Outcome.fatal line) ↔ droneRes.Status = "Error") ∧
      main_classify droneRes =
        (if droneRes.Status = "Error" then
          Outcome.fatal ("Fatal: Import failed. Error " ++ droneRes.Message)
        else Outcome.success "Success: Operation completed successfully") ∧
      main_classify { Status := "Error", Message := "duplicate project" } =
        Outcome.fatal "Fatal: Import failed. Error duplicate project" ∧
      main_classify { Status := "Success", Message := droneRes.Message } =
        Outcome.success "Success: Operation completed successfully" ∧
      main_classify { Status := "", Message := droneRes.Message } =
        Outcome.success "Success: Operation completed successfully" ∧
      main_classify { Status := "error", Message := droneRes.Message } =
        Outcome.success "Success: Operation completed successfully" := by
  refine ⟨?_, rfl, by decide, ?_, ?_, ?_⟩
  · unfold main_classify
    by_cases h : droneRes.Status = "Error" <;> simp [h]
  · simp [main_classify]
  · simp [main_classify]
  · simp [main_classify]

/-! ## Ports -/

/-- C4, as amended: buildProject returns a nil error for every input, and
the port of the service emitted for an open service record of an alive host is
the integer its port text denotes when that integer lies in the int range
(443 for "443"), the nearest bound of the int range when the text is a decimal
integer outside the range, and zero when the text is no decimal integer,
unless its leading digits already exceed the 64-bit unsigned range, which
gives the bound of the sign. -/
theorem buildProject_port (data : msf.Data) (projectID : String) (tags : List String) :
    (buildProject data projectID tags).2 = none ∧
      (buildProject data projectID tags).1.Hosts.map
          (fun host => host.Services.map (fun service => service.Port)) =
        (data.Hosts.filter (fun h => decide (h.State = "alive"))).map
          (fun h => (h.Services.filter (fun svc => decide (svc.State = "open"))).map
            (fun svc => portValue svc.Port)) ∧
      portValue "443" = 443 ∧
      (buildProject
          { Hosts := [{ State := "alive", Services :=
              [{ Port := "443", Proto := "tcp", State := "open", Name := "https", Info := "" }] }] }
          projectID ["pentest"]).1.Hosts.map (fun host => (host.Services, host.Tags)) =
        [([{ Port := 443, Protocol := "tcp", Service := "https", Product := "Unknown" }],
          ["pentest"])] := by
  refine ⟨rfl, ?_, by decide, ?_⟩
  · rw [buildProject_hosts]
    simp only [aliveHosts, openServices, emittedHost, emittedService, List.map_map,
      Function.comp_def, Atoi_value]
  · rw [buildProject_hosts]
    decide

/-- C4, as stated, fails: the port text 9223372036854775808 is a decimal
integer outside the int range, Atoi reports a range failure for it, and the
port of the emitted service is 9223372036854775807, not zero. -/
theorem buildProject_port_out_of_range :
    denotedInt "9223372036854775808" = some 9223372036854775808 ∧
      (Atoi "9223372036854775808").2 = some NumError.ErrRange ∧
      (buildProject
          { Hosts := [{ State := "alive", Services :=
              [{ Port := "9223372036854775808", Proto := "tcp", State := "open" }] }] }
          "p" []).1.Hosts.map (fun host => host.Services.map (fun service => service.Port)) =
        [[9223372036854775807]] ∧
      (buildProject
          { Hosts := [{ State := "alive", Services :=
              [{ Port := "9223372036854775808", Proto := "tcp", State := "open" }] }] }
          "p" []).1.Hosts.map (fun host => host.Services.map (fun service => service.Port)) ≠
        [[0]] := by
  refine ⟨by decide, by decide, ?_, ?_⟩
  · rw [buildProject_hosts]
    decide
  · rw [buildProject_hosts]
    decide
